import Mathlib

/-!
# Verification of the reference tracer

A shallow embedding of `src/reference-tracer.js`, the traversal/matching
engine that traces property-access paths (described by a caller-supplied
"trace map") from global bindings, CommonJS `require` calls, and from the
ES-module import/export declarations, emitting match records for reads,
calls and constructions.

Modelling conventions:
* Marker payloads (the values stored under the `READ`/`CALL`/`CONSTRUCT`
  symbols) are opaque to the engine; we model them as `Nat` and model a
  marker as `Option Nat` (`some` = present and truthy).
* The `ESM` marker carries no payload; it is a `Bool` field (own-property
  presence, as tested with `has(nextTraceMap, ESM)`).
* AST nodes are identified by numeric ids.  Since the tracer only ever
  walks *upward* through `node.parent` links, an identifier reference is
  represented by its chain of ancestor frames (innermost first); each frame
  records the parent's syntactic kind, which slot the child occupies, and
  the data the tracer reads from that parent.  The collaborator
  `getPropertyName` is modelled by storing its result (`Option String`)
  in member/property data; `getStringIfConstant` on a call's first argument
  likewise as `Option String` on call frames.
* The scope graph is modelled with an indirection through variable ids:
  scopes map names to ids and a per-program environment maps ids to
  variable data (definition count plus references), which lets the same
  variable be reachable from several identifier nodes while keeping the
  object identity used by `variableStack.includes`.
* The generator functions produce lazy sequences; we model each as the
  list of match records it yields.  The ES-module entry can throw a
  `TypeError` (see `_iterateImportReferences`); its result type `Out`
  carries the records yielded before the throw plus an `ok` flag.
* The mutable `this.variableStack` is threaded as an explicit argument;
  the `try`/`finally` push/pop discipline corresponds to the callee
  receiving the pushed stack while the caller keeps its own.
* The mutual recursion of the three internal iterators terminates in JS
  only thanks to the variable-stack guard; we make the recursion
  structural on a fuel argument (each internal call consumes one unit),
  with fuel exhaustion producing no further records.
-/

namespace RefTracer

/-- The three match types (symbols `READ`, `CALL`, `CONSTRUCT`). -/
inductive MarkerType where
  | read
  | call
  | construct
deriving DecidableEq

/-- A trace map node: string-keyed children in insertion order, optional
`READ`/`CALL`/`CONSTRUCT` marker payloads and the `ESM` marker flag. -/
inductive TraceMap where
  | node (children : List (String × TraceMap))
      (readEntry callEntry constructEntry : Option Nat) (esm : Bool)

/-- The children of a trace map node, in object-key insertion order. -/
def TraceMap.children : TraceMap → List (String × TraceMap)
  | .node cs _ _ _ _ => cs

/-- Own-property presence of the `ESM` marker (`has(traceMap, ESM)`). -/
def TraceMap.esm : TraceMap → Bool
  | .node _ _ _ _ e => e

/-- The marker payload of a given type stored on a trace map node. -/
def markerOf : TraceMap → MarkerType → Option Nat
  | .node _ r _ _ _, .read => r
  | .node _ _ c _ _, .call => c
  | .node _ _ _ k _, .construct => k

/-- `traceMap[key]` / `has(traceMap, key)`: child lookup by property name. -/
def lookupChild (tm : TraceMap) (key : String) : Option TraceMap :=
  (tm.children.find? (fun p => p.1 == key)).map (·.2)

/-- Follow a whole path of property names through a trace map. -/
def lookupPath : TraceMap → List String → Option TraceMap
  | tm, [] => some tm
  | tm, k :: ks =>
    match lookupChild tm k with
    | none => none
    | some c => lookupPath c ks

/-- A binding pattern appearing on a left-hand side: identifier (with its
name and the scope chain used by `_findVariable`, innermost first),
object destructuring (each property carries its node id, the result of
`getPropertyName`, and the value sub-pattern), default-value pattern, or
any other pattern kind (array/rest/…, not followed). -/
inductive Pattern where
  | ident (nodeId : Nat) (name : String) (scopes : List (List (String × Nat)))
  | objectPat (props : List (Nat × Option String × Pattern))
  | assignPat (left : Pattern)
  | otherPat
deriving Inhabited

/-- One step of a `node.parent` chain: the parent node's kind, the slot the
child occupies in it, and the data the tracer reads from the parent.
`member` stores the result of `getPropertyName(parent)`; `callF` stores the
result of `getStringIfConstant(parent.arguments[0])`; sentinel kinds that
the tracer does not inspect further (statements, declarations,
array/arrow/class/function/object expressions, `Program`) are
`sentinelOther`; every non-sentinel kind is `transparent`. -/
inductive Frame where
  | member (nodeId : Nat) (isObject : Bool) (propName : Option String)
  | callF (nodeId : Nat) (isCallee : Bool) (arg0 : Option String)
  | newF (nodeId : Nat) (isCallee : Bool)
  | assignExprF (nodeId : Nat) (isRight : Bool) (left : Pattern)
  | assignPatF (nodeId : Nat) (isRight : Bool) (left : Pattern)
  | declaratorF (nodeId : Nat) (isInit : Bool) (idPat : Pattern)
  | sentinelOther (nodeId : Nat)
  | transparent (nodeId : Nat)

/-- Whether a frame's node kind matches `SENTINEL_TYPE`. -/
def Frame.isSentinel : Frame → Bool
  | .transparent _ => false
  | _ => true

/-- One reference of a variable: the identifier node's id, the read flag
(`reference.isRead()`), and the identifier's ancestor frame chain. -/
structure Reference where
  nodeId : Nat
  isRead : Bool
  chain : List Frame

/-- The data owned by a scope-graph variable: how many declaring
definitions it has (`variable.defs.length`) and its references in order. -/
structure VariableData where
  defsCount : Nat
  references : List Reference

/-- A program statement, as far as `iterateEsmReferences` inspects the
program body: import/export declarations with their literal source string
(`none` models a missing/null `source`) and specifier lists. -/
inductive ModSpecifier where
  | importSpec (nodeId : Nat) (imported : String) (localName : String)
      (localScopes : List (List (String × Nat)))
  | importDefaultSpec (nodeId : Nat) (localName : String)
      (localScopes : List (List (String × Nat)))
  | importNamespaceSpec (nodeId : Nat) (localName : String)
      (localScopes : List (List (String × Nat)))
  | exportSpec (nodeId : Nat) (localName : String)

/-- Top-level statements of the program body. -/
inductive Stmt where
  | importDecl (nodeId : Nat) (source : Option String) (specifiers : List ModSpecifier)
  | exportAllDecl (nodeId : Nat) (source : Option String)
  | exportNamedDecl (nodeId : Nat) (source : Option String) (specifiers : List ModSpecifier)
  | exportDefaultDecl (nodeId : Nat)
  | otherStmt (nodeId : Nat)

/-- The CommonJS/ESM interop mode option. -/
inductive Mode where
  | legacy
  | strict
deriving DecidableEq

/-- A match record `{node, path, type, entry}`. -/
structure Match where
  node : Nat
  path : List String
  type : MarkerType
  entry : Nat
deriving DecidableEq

/-- The tracer instance together with its analysis inputs: the variable
environment (id → data), the global scope's `set`, the program body behind
`globalScope.block`, and the two constructor options. -/
structure Tracer where
  env : List (Nat × VariableData)
  globalSet : List (String × Nat)
  programBody : List Stmt
  mode : Mode
  globalObjectNames : List String

/-- Resolve a variable id against the environment. -/
def envLookup (env : List (Nat × VariableData)) (id : Nat) : Option VariableData :=
  (env.find? (fun p => p.1 == id)).map (·.2)

/-- `this.globalScope.set.get(key)`: a global variable with its identity. -/
def globalVar (t : Tracer) (key : String) : Option (Nat × VariableData) :=
  match t.globalSet.find? (fun p => p.1 == key) with
  | none => none
  | some p =>
    match envLookup t.env p.2 with
    | none => none
    | some vd => some (p.2, vd)

/-- `_findVariable`: walk the scope chain outward from the innermost scope
enclosing the identifier, returning the first variable bound to its name. -/
def _findVariable (t : Tracer) (name : String) :
    List (List (String × Nat)) → Option (Nat × VariableData)
  | [] => none
  | s :: rest =>
    match s.find? (fun p => p.1 == name) with
    | some p =>
      match envLookup t.env p.2 with
      | none => none
      | some vd => some (p.2, vd)
    | none => _findVariable t name rest

/-- Emit a READ match record at `nodeId` when `tm` carries a READ marker
(the `if (traceMap[READ]) yield { … }` pattern). -/
def emitRead (nodeId : Nat) (path : List String) (tm : TraceMap) : List Match :=
  match markerOf tm .read with
  | some e => [⟨nodeId, path, .read, e⟩]
  | none => []

/-- A pending internal-iterator invocation: `_iterateVariableReferences`,
`_iteratePropertyReferences` or `_iterateLhsReferences`. -/
inductive Job where
  | varJob (v : Nat × VariableData) (path : List String) (tm : TraceMap) (shouldReport : Bool)
  | propJob (chain : List Frame) (path : List String) (tm : TraceMap)
  | lhsJob (pat : Pattern) (path : List String) (tm : TraceMap)

/-- The `path` argument of a pending invocation. -/
def Job.basePath : Job → List String
  | .varJob _ p _ _ => p
  | .propJob _ p _ => p
  | .lhsJob _ p _ => p

/-- The `traceMap` argument of a pending invocation. -/
def Job.baseMap : Job → TraceMap
  | .varJob _ _ tm _ => tm
  | .propJob _ _ tm => tm
  | .lhsJob _ _ tm => tm

/-- Body of `_iterateVariableReferences` (the recursive calls are
abstracted as `rec`): return nothing if the variable is already on the
traversal stack, otherwise push it and, for every read reference, report a
READ when requested and continue with property matching at the reference. -/
def stepVar (rec : List Nat → Job → List Match) (stack : List Nat)
    (v : Nat × VariableData) (path : List String) (tm : TraceMap)
    (shouldReport : Bool) : List Match :=
  if v.1 ∈ stack then []
  else
    v.2.references.flatMap fun ref =>
      if ref.isRead then
        (if shouldReport then emitRead ref.nodeId path tm else []) ++
          rec (v.1 :: stack) (.propJob ref.chain path tm)
      else []

/-- The per-parent-kind dispatch of `_iteratePropertyReferences` (the
`if (parent.type === …)` chain), applied to the first sentinel parent
frame; `rest` is that parent node's own ancestor chain. -/
def stepFrame (rec : List Nat → Job → List Match) (stack : List Nat)
    (frame : Frame) (rest : List Frame) (path : List String) (tm : TraceMap) : List Match :=
  match frame with
  | .member pid isObject propName =>
    if isObject then
      match propName with
      | none => []
      | some key =>
        match lookupChild tm key with
        | none => []
        | some next =>
          emitRead pid (path ++ [key]) next ++
            rec stack (.propJob rest (path ++ [key]) next)
    else []
  | .callF pid isCallee _ =>
    if isCallee then
      match markerOf tm .call with
      | some e => [⟨pid, path, .call, e⟩]
      | none => []
    else []
  | .newF pid isCallee =>
    if isCallee then
      match markerOf tm .construct with
      | some e => [⟨pid, path, .construct, e⟩]
      | none => []
    else []
  | .assignExprF _ isRight left =>
    if isRight then
      rec stack (.lhsJob left path tm) ++ rec stack (.propJob rest path tm)
    else []
  | .assignPatF _ isRight left =>
    if isRight then rec stack (.lhsJob left path tm) else []
  | .declaratorF _ isInit idPat =>
    if isInit then rec stack (.lhsJob idPat path tm) else []
  | .sentinelOther _ => []
  | .transparent _ => []

/-- Body of `_iteratePropertyReferences`: climb through non-sentinel
parents, then dispatch on the first sentinel parent's kind. -/
def stepProp (rec : List Nat → Job → List Match) (stack : List Nat)
    (chain : List Frame) (path : List String) (tm : TraceMap) : List Match :=
  match chain.dropWhile (fun f => !f.isSentinel) with
  | [] => []
  | frame :: rest => stepFrame rec stack frame rest path tm

/-- Body of `_iterateLhsReferences`: identifiers resolve their variable and
propagate with `shouldReport = false` (silently stopping when the resolver
finds nothing); object patterns process each property independently;
default-value patterns recurse into their target; other patterns stop. -/
def stepLhs (t : Tracer) (rec : List Nat → Job → List Match) (stack : List Nat)
    (pat : Pattern) (path : List String) (tm : TraceMap) : List Match :=
  match pat with
  | .ident _ name scopes =>
    match _findVariable t name scopes with
    | none => []
    | some v => rec stack (.varJob v path tm false)
  | .objectPat props =>
    props.flatMap fun p =>
      match p.2.1 with
      | none => []
      | some key =>
        match lookupChild tm key with
        | none => []
        | some next =>
          emitRead p.1 (path ++ [key]) next ++
            rec stack (.lhsJob p.2.2 (path ++ [key]) next)
  | .assignPat left => rec stack (.lhsJob left path tm)
  | .otherPat => []

/-- The three mutually recursive internal iterators, tied together by a
fuel argument consumed once per internal call. -/
def run (t : Tracer) : Nat → List Nat → Job → List Match
  | 0, _, _ => []
  | fuel + 1, stack, job =>
    match job with
    | .varJob v path tm shouldReport => stepVar (run t fuel) stack v path tm shouldReport
    | .propJob chain path tm => stepProp (run t fuel) stack chain path tm
    | .lhsJob pat path tm => stepLhs t (run t fuel) stack pat path tm

/-- `_iterateVariableReferences(variable, path, traceMap, shouldReport)`. -/
def _iterateVariableReferences (t : Tracer) (fuel : Nat) (stack : List Nat)
    (v : Nat × VariableData) (path : List String) (tm : TraceMap)
    (shouldReport : Bool) : List Match :=
  run t fuel stack (.varJob v path tm shouldReport)

/-- `_iteratePropertyReferences(rootNode, path, traceMap)` (the root node
is given by its ancestor frame chain). -/
def _iteratePropertyReferences (t : Tracer) (fuel : Nat) (stack : List Nat)
    (chain : List Frame) (path : List String) (tm : TraceMap) : List Match :=
  run t fuel stack (.propJob chain path tm)

/-- `_iterateLhsReferences(patternNode, path, traceMap)`. -/
def _iterateLhsReferences (t : Tracer) (fuel : Nat) (stack : List Nat)
    (pat : Pattern) (path : List String) (tm : TraceMap) : List Match :=
  run t fuel stack (.lhsJob pat path tm)

/-- `iterateGlobalReferences(traceMap)`: the top-level-key loop followed by
the global-object-alias loop, both requiring an undeclared global. -/
def iterateGlobalReferences (t : Tracer) (fuel : Nat) (tm : TraceMap) : List Match :=
  ((tm.children.map Prod.fst).flatMap fun key =>
    match lookupChild tm key with
    | none => []
    | some nextTraceMap =>
      match globalVar t key with
      | none => []
      | some v =>
        if v.2.defsCount ≠ 0 then []
        else run t fuel [] (.varJob v [key] nextTraceMap true)) ++
  (t.globalObjectNames.flatMap fun key =>
    match globalVar t key with
    | none => []
    | some v =>
      if v.2.defsCount ≠ 0 then []
      else run t fuel [] (.varJob v [] tm false))

/-- `iterateCjsReferences(traceMap)`: references of the undeclared
`require` binding that sit exactly in callee position of a call whose
first argument is a constant string keying the trace map. -/
def iterateCjsReferences (t : Tracer) (fuel : Nat) (tm : TraceMap) : List Match :=
  match globalVar t "require" with
  | none => []
  | some v =>
    if v.2.defsCount ≠ 0 then []
    else
      v.2.references.flatMap fun ref =>
        match ref.chain with
        | .callF pid isCallee arg0 :: rest =>
          if ref.isRead && isCallee then
            match arg0 with
            | none => []
            | some key =>
              match lookupChild tm key with
              | none => []
              | some nextTraceMap =>
                emitRead pid [key] nextTraceMap ++
                  run t fuel [] (.propJob rest [key] nextTraceMap)
          else []
        | _ => []

/-- A lazy-sequence result that may end in a thrown `TypeError`: the
records yielded before the throw, and an `ok` flag (`false` = threw). -/
structure Out where
  records : List Match
  ok : Bool
deriving DecidableEq

/-- Sequential composition of two lazily-consumed iterator segments: the
second is only reached when the first completed normally. -/
def Out.seq (a b : Out) : Out :=
  if a.ok then ⟨a.records ++ b.records, b.ok⟩ else a

/-- `exceptDefault(name, index)`: the `Array#filter` predicate dropping a
`"default"` path segment at index 1. -/
def exceptDefault (name : String) (index : Nat) : Bool :=
  !(index == 1 && name == "default")

/-- Index-aware list filtering, as `Array#filter` with an index-using
predicate (starting index given explicitly). -/
def filterIdx (p : String → Nat → Bool) : Nat → List String → List String
  | _, [] => []
  | i, a :: rest =>
    if p a i then a :: filterIdx p (i + 1) rest else filterIdx p (i + 1) rest

/-- `report.path.filter(exceptDefault)`. -/
def filterWithIndex (p : String → Nat → Bool) (l : List String) : List String :=
  filterIdx p 0 l

/-- `_iterateImportReferences(specifierNode, path, traceMap)`.  Note that
the import-specifier and namespace branches pass the result of
`_findVariable` to `_iterateVariableReferences` without a null check: a
missing variable makes `variable.references` throw a `TypeError`, which is
modelled by `ok := false`. -/
def _iterateImportReferences (t : Tracer) (fuel : Nat) (spec : ModSpecifier)
    (path : List String) (tm : TraceMap) : Out :=
  match spec with
  | .importSpec nid imported localName localScopes =>
    match lookupChild tm imported with
    | none => ⟨[], true⟩
    | some nextTraceMap =>
      let readPart := emitRead nid (path ++ [imported]) nextTraceMap
      match _findVariable t localName localScopes with
      | none => ⟨readPart, false⟩
      | some v => ⟨readPart ++ run t fuel [] (.varJob v (path ++ [imported]) nextTraceMap false), true⟩
  | .importDefaultSpec nid localName localScopes =>
    match lookupChild tm "default" with
    | none => ⟨[], true⟩
    | some nextTraceMap =>
      let readPart := emitRead nid (path ++ ["default"]) nextTraceMap
      match _findVariable t localName localScopes with
      | none => ⟨readPart, false⟩
      | some v => ⟨readPart ++ run t fuel [] (.varJob v (path ++ ["default"]) nextTraceMap false), true⟩
  | .importNamespaceSpec _ localName localScopes =>
    match _findVariable t localName localScopes with
    | none => ⟨[], false⟩
    | some v => ⟨run t fuel [] (.varJob v path tm false), true⟩
  | .exportSpec nid localName =>
    match lookupChild tm localName with
    | none => ⟨[], true⟩
    | some nextTraceMap => ⟨emitRead nid (path ++ [localName]) nextTraceMap, true⟩

/-- The interop wrapping of a CommonJS-shaped (ESM-marker-less) module map:
`{ default: map }` in strict mode, `Object.assign({default: map}, map)` in
legacy mode (which also copies the symbol-keyed markers and lets an own
`default` key of the map override the wrapper's). -/
def wrapMap (mode : Mode) (ntm : TraceMap) : TraceMap :=
  match mode with
  | .strict => .node [("default", ntm)] none none none false
  | .legacy =>
    .node (("default", (lookupChild ntm "default").getD ntm) ::
        ntm.children.filter (fun p => p.1 != "default"))
      (markerOf ntm .read) (markerOf ntm .call) (markerOf ntm .construct) false

/-- Post-processing of one specifier's report stream: passed through
unchanged for ESM-shaped maps, otherwise each report's path is filtered
with `exceptDefault` and trivial `READ` reports are suppressed. -/
def processSpecRes (esmFlag : Bool) (o : Out) : Out :=
  if esmFlag then o
  else
    ⟨o.records.filterMap fun r =>
      let p := filterWithIndex exceptDefault r.path
      if p.length ≥ 2 || r.type != MarkerType.read then
        some ⟨r.node, p, r.type, r.entry⟩
      else none,
     o.ok⟩

/-- The specifier loop of `iterateEsmReferences` for one declaration. -/
def esmSpecLoop (t : Tracer) (fuel : Nat) (specs : List ModSpecifier)
    (path : List String) (ntm : TraceMap) : Out :=
  specs.foldl
    (fun acc spec =>
      acc.seq (processSpecRes ntm.esm
        (_iterateImportReferences t fuel spec path
          (if ntm.esm then ntm else wrapMap t.mode ntm))))
    ⟨[], true⟩

/-- Processing of one top-level statement by `iterateEsmReferences`. -/
def esmStmt (t : Tracer) (fuel : Nat) (tm : TraceMap) : Stmt → Out
  | .importDecl nid (some moduleId) specs =>
    match lookupChild tm moduleId with
    | none => ⟨[], true⟩
    | some ntm => Out.seq ⟨emitRead nid [moduleId] ntm, true⟩ (esmSpecLoop t fuel specs [moduleId] ntm)
  | .exportNamedDecl nid (some moduleId) specs =>
    match lookupChild tm moduleId with
    | none => ⟨[], true⟩
    | some ntm => Out.seq ⟨emitRead nid [moduleId] ntm, true⟩ (esmSpecLoop t fuel specs [moduleId] ntm)
  | .exportAllDecl nid (some moduleId) =>
    match lookupChild tm moduleId with
    | none => ⟨[], true⟩
    | some ntm =>
      ⟨emitRead nid [moduleId] ntm ++
        ((ntm.children.map Prod.fst).flatMap fun key =>
          match lookupChild ntm key with
          | none => []
          | some sub => emitRead nid ([moduleId] ++ [key]) sub),
       true⟩
  | _ => ⟨[], true⟩

/-- `iterateEsmReferences(traceMap)`. -/
def iterateEsmReferences (t : Tracer) (fuel : Nat) (tm : TraceMap) : Out :=
  t.programBody.foldl (fun acc st => acc.seq (esmStmt t fuel tm st)) ⟨[], true⟩

end RefTracer

/-! ## Concrete analysis inputs used by the claims -/

namespace RefTracer

/-- An empty program body and the default options, shared by scenarios that
only exercise the global or CommonJS strategies. -/
def baseTracer (env : List (Nat × VariableData)) (globalSet : List (String × Nat)) : Tracer :=
  ⟨env, globalSet, [], .strict, ["global", "self", "window"]⟩

/-- Scenario for the global strategy: `a; window.x;` with undeclared
globals `a` (id 1) and `window` (id 2). -/
def vdA : VariableData := ⟨0, [⟨10, true, [.sentinelOther 11]⟩]⟩

/-- The undeclared `window` variable of the same scenario. -/
def vdW : VariableData := ⟨0, [⟨20, true, [.member 21 true (some "x"), .sentinelOther 22]⟩]⟩

/-- Tracer for the global-strategy positive scenario. -/
def trC2 : Tracer := baseTracer [(1, vdA), (2, vdW)] [("a", 1), ("window", 2)]

/-- Trace map `{a: {READ: 7}, x: {READ: 9}}`. -/
def tmC2 : TraceMap :=
  .node [("a", .node [] (some 7) none none false), ("x", .node [] (some 9) none none false)]
    none none none false

/-- Scenario `function window() {} …; window.x;`: `window` (id 2) has one
declaring definition. -/
def vdWdecl : VariableData := ⟨1, [⟨20, true, [.member 21 true (some "x"), .sentinelOther 22]⟩]⟩

/-- Tracer for the shadowed-`window` scenario. -/
def trC2n : Tracer := baseTracer [(2, vdWdecl)] [("window", 2)]

/-- Trace map `{window: {x: {READ: 5}}}`. -/
def tmC2n : TraceMap :=
  .node [("window", .node [("x", .node [] (some 5) none none false)] none none none false)]
    none none none false

/-- The undeclared `require` variable (id 3) with four references:
`require("m").foo`, `f(require)`, `require(x)` (non-constant argument) and
`require("zzz")` (key not in the trace map). -/
def vdReq : VariableData :=
  ⟨0,
    [⟨30, true, [.callF 31 true (some "m"), .member 32 true (some "foo"), .sentinelOther 33]⟩,
     ⟨34, true, [.callF 35 false none, .sentinelOther 38]⟩,
     ⟨36, true, [.callF 39 true none, .sentinelOther 38]⟩,
     ⟨37, true, [.callF 40 true (some "zzz"), .sentinelOther 41]⟩]⟩

/-- Tracer for the CommonJS positive scenario. -/
def trC3 : Tracer := baseTracer [(3, vdReq)] [("require", 3)]

/-- Trace map `{m: {READ: 4, foo: {READ: 6}}}`. -/
def tmC3 : TraceMap :=
  .node [("m", .node [("foo", .node [] (some 6) none none false)] (some 4) none none false)]
    none none none false

/-- A locally declared `require` binding with the same references. -/
def vdReqDecl : VariableData := ⟨1, vdReq.references⟩

/-- Tracer with a shadowed `require`. -/
def trC3n : Tracer := baseTracer [(3, vdReqDecl)] [("require", 3)]

/-- `let x = x;`: variable `x` (id 9) with one declaring definition and its
only read reference being the self-referential initializer. -/
def vdXself : VariableData :=
  ⟨1, [⟨80, true, [.declaratorF 81 true (.ident 82 "x" [[("x", 9)]]), .sentinelOther 83]⟩]⟩

/-- Tracer for the self-alias scenario. -/
def trC4 : Tracer := baseTracer [(9, vdXself)] []

/-- Trace map carrying a READ marker with payload 5. -/
def tmC4 : TraceMap := .node [] (some 5) none none false

/-- CommonJS side of the legacy-equivalence scenario: `require("m").foo`. -/
def vdReq5 : VariableData :=
  ⟨0, [⟨30, true, [.callF 31 true (some "m"), .member 32 true (some "foo"), .sentinelOther 33]⟩]⟩

/-- Tracer (legacy mode) for `require("m").foo`. -/
def trC5c : Tracer := ⟨[(3, vdReq5)], [("require", 3)], [], .legacy, ["global", "self", "window"]⟩

/-- CommonJS-shaped trace map `{m: {foo: {READ: 11}}}` (no ESM marker). -/
def tmC5 : TraceMap :=
  .node [("m", .node [("foo", .node [] (some 11) none none false)] none none none false)]
    none none none false

/-- The imported binding `foo` (id 12) of `import {foo} from "m"; foo;`. -/
def vdFoo5 : VariableData := ⟨1, [⟨102, true, [.sentinelOther 103]⟩]⟩

/-- Tracer (legacy mode) for `import {foo} from "m"; foo;`. -/
def trC5e : Tracer :=
  ⟨[(12, vdFoo5)], [],
    [.importDecl 100 (some "m") [.importSpec 101 "foo" "foo" [[("foo", 12)]]]],
    .legacy, ["global", "self", "window"]⟩

/-- Unused default-import binding `x` (id 13) of a bare `import x from "m"`. -/
def vdX6 : VariableData := ⟨1, []⟩

/-- Tracer (strict mode) for the bare `import x from "m"`. -/
def trC6a : Tracer :=
  ⟨[(13, vdX6)], [],
    [.importDecl 110 (some "m") [.importDefaultSpec 111 "x" [[("x", 13)]]]],
    .strict, ["global", "self", "window"]⟩

/-- Trace map `{m: {foo: {READ: 3}}}`: no READ marker at the module's own
top level, no ESM marker. -/
def tmC6 : TraceMap :=
  .node [("m", .node [("foo", .node [] (some 3) none none false)] none none none false)]
    none none none false

/-- Named-import binding `foo` (id 14) of `import {foo} from "m"; foo;`. -/
def vdFoo6 : VariableData := ⟨1, [⟨117, true, [.sentinelOther 118]⟩]⟩

/-- Tracer (strict mode) for `import {foo} from "m"; foo;`. -/
def trC6b : Tracer :=
  ⟨[(14, vdFoo6)], [],
    [.importDecl 115 (some "m") [.importSpec 116 "foo" "foo" [[("foo", 14)]]]],
    .strict, ["global", "self", "window"]⟩

/-- The undeclared global `G` (id 21) of `(x = G.a).foo; x.foo;`: its
reference climbs through the member access `G.a`, the assignment whose
target is `x`, and the member access `.foo` on the assignment. -/
def vdG7 : VariableData :=
  ⟨0, [⟨120, true,
    [.member 121 true (some "a"),
     .assignExprF 122 true (.ident 123 "x" [[("x", 22)]]),
     .member 124 true (some "foo"), .sentinelOther 125]⟩]⟩

/-- The assigned variable `x` (id 22): one write reference (the assignment
target) and one read reference `x.foo`. -/
def vdX7 : VariableData :=
  ⟨1, [⟨123, false, [.assignExprF 122 false (.ident 123 "x" [[("x", 22)]]), .member 124 true (some "foo"), .sentinelOther 125]⟩,
       ⟨126, true, [.member 127 true (some "foo"), .sentinelOther 128]⟩]⟩

/-- Tracer for the assignment-propagation scenario. -/
def trC7 : Tracer := baseTracer [(21, vdG7), (22, vdX7)] [("G", 21)]

/-- Trace map `{G: {a: {foo: {READ: 8}}}}`. -/
def tmC7 : TraceMap :=
  .node [("G",
    .node [("a", .node [("foo", .node [] (some 8) none none false)] none none none false)]
      none none none false)]
    none none none false

/-- The undeclared `window` (id 2) of `const {z, y} = window.x; y();`. -/
def vdW8 : VariableData :=
  ⟨0, [⟨40, true,
    [.member 41 true (some "x"),
     .declaratorF 42 true (.objectPat
       [(43, some "z", .ident 44 "z" [[("z", 6)]]),
        (45, some "y", .ident 46 "y" [[("y", 5)]])]),
     .sentinelOther 47]⟩]⟩

/-- The destructured binding `y` (id 5), read as the callee of `y()`. -/
def vdY8 : VariableData := ⟨1, [⟨50, true, [.callF 51 true none, .sentinelOther 52]⟩]⟩

/-- The destructured binding `z` (id 6), unused. -/
def vdZ8 : VariableData := ⟨1, []⟩

/-- Tracer for the destructuring scenario. -/
def trC8 : Tracer := baseTracer [(2, vdW8), (5, vdY8), (6, vdZ8)] [("window", 2)]

/-- Trace map `{x: {y: {CALL: 8}}}`. -/
def tmC8 : TraceMap :=
  .node [("x", .node [("y", .node [] none (some 8) none false)] none none none false)]
    none none none false

/-- `import x from "m"` whose local binding `x` resolves to no variable
(empty scope chain): the resolver finds nothing at the import specifier. -/
def trC9 : Tracer :=
  ⟨[], [],
    [.importDecl 130 (some "m") [.importDefaultSpec 131 "x" []]],
    .strict, ["global", "self", "window"]⟩

/-- Trace map `{m: {}}`. -/
def tmC9 : TraceMap := .node [("m", .node [] none none none false)] none none none false

/-- Default-import binding `x` (id 7) of `import x from "m"; x.foo;`. -/
def vdX10 : VariableData := ⟨1, [⟨60, true, [.member 61 true (some "foo"), .sentinelOther 62]⟩]⟩

/-- Tracer (strict mode) for `import x from "m"; x.foo;`. -/
def trC10a : Tracer :=
  ⟨[(7, vdX10)], [],
    [.importDecl 140 (some "m") [.importDefaultSpec 141 "x" [[("x", 7)]]]],
    .strict, ["global", "self", "window"]⟩

/-- Default-import binding `x` (id 8) of `import x from "m"; x.foo.default;`. -/
def vdX11 : VariableData :=
  ⟨1, [⟨70, true, [.member 71 true (some "foo"), .member 72 true (some "default"), .sentinelOther 73]⟩]⟩

/-- Tracer (strict mode) for `import x from "m"; x.foo.default;`. -/
def trC10b : Tracer :=
  ⟨[(8, vdX11)], [],
    [.importDecl 150 (some "m") [.importDefaultSpec 151 "x" [[("x", 8)]]]],
    .strict, ["global", "self", "window"]⟩

/-- Trace map `{m: {foo: {default: {READ: 4}}}}`. -/
def tmC10b : TraceMap :=
  .node [("m",
    .node [("foo", .node [("default", .node [] (some 4) none none false)] none none none false)]
      none none none false)]
    none none none false

/-- The binding `d` (id 11) of `import {default as d} from "m"; d();`. -/
def vdD1 : VariableData := ⟨1, [⟨91, true, [.callF 92 true none, .sentinelOther 93]⟩]⟩

/-- Tracer (legacy mode) for `import {default as d} from "m"; d();`. -/
def trC1x : Tracer :=
  ⟨[(11, vdD1)], [],
    [.importDecl 160 (some "m") [.importSpec 161 "default" "d" [[("d", 11)]]]],
    .legacy, ["global", "self", "window"]⟩

/-- Trace map `{m: {default: {CALL: 9}}}` (no ESM marker): the module map
owns a `default` key. -/
def tmC1x : TraceMap :=
  .node [("m", .node [("default", .node [] none (some 9) none false)] none none none false)]
    none none none false

/-- Tracer (strict mode) for the bare star re-export `export * from "m";`. -/
def trC10x : Tracer :=
  ⟨[], [], [.exportAllDecl 170 (some "m")], .strict, ["global", "self", "window"]⟩

/-- Trace map `{m: {default: {READ: 1}}}` (no ESM marker): the module map
owns a `default` key carrying a READ marker. -/
def tmC10x : TraceMap :=
  .node [("m", .node [("default", .node [] (some 1) none none false)] none none none false)]
    none none none false


end RefTracer

/-! ## Path/entry consistency machinery -/

namespace RefTracer

/-- A match record is consistent with base path `base` and trace map `tm`:
its path extends `base` by some suffix that, followed through `tm`, reaches
the node whose marker payload is exactly the record's `entry`. -/
def Consistent (base : List String) (tm : TraceMap) (m : Match) : Prop :=
  ∃ ext tmEnd, m.path = base ++ ext ∧ lookupPath tm ext = some tmEnd ∧
    markerOf tmEnd m.type = some m.entry

/-- Whether a pending invocation never reports a READ at its own base path
(`shouldReport = false`, or not a variable job). -/
def Job.noReport : Job → Prop
  | .varJob _ _ _ r => r = false
  | _ => True

/-- Drop a leading `"default"` segment (the effect of the `exceptDefault`
filter on the part of an internal path that follows the module key). -/
def tailDefault (l : List String) : List String :=
  match l with
  | [] => []
  | a :: rest => if a == "default" then rest else a :: rest

theorem emitRead_consistent {nid : Nat} {p : List String} {tm : TraceMap} {m : Match}
    (h : m ∈ emitRead nid p tm) : Consistent p tm m := by
  unfold emitRead at h
  cases hr : markerOf tm .read with
  | none => simp [hr] at h
  | some e =>
    simp only [hr, List.mem_singleton] at h
    subst h
    exact ⟨[], tm, by simp, by simp [lookupPath], hr⟩

theorem consistent_extend {base : List String} {key : String} {tm next : TraceMap} {m : Match}
    (h : lookupChild tm key = some next)
    (hc : Consistent (base ++ [key]) next m) : Consistent base tm m := by
  obtain ⟨ext, tmEnd, hp, hl, hm⟩ := hc
  exact ⟨key :: ext, tmEnd, by simp [hp], by simp [lookupPath, h, hl], hm⟩

theorem stepVar_consistent {rec : List Nat → Job → List Match} {stack : List Nat}
    {v : Nat × VariableData} {path : List String} {tm : TraceMap} {shouldReport : Bool}
    (hrec : ∀ st j m, m ∈ rec st j → Consistent j.basePath j.baseMap m) :
    ∀ m ∈ stepVar rec stack v path tm shouldReport, Consistent path tm m := by
  intro m hm
  unfold stepVar at hm
  split at hm
  · simp at hm
  · simp only [List.mem_flatMap] at hm
    obtain ⟨ref, _, hm⟩ := hm
    split at hm
    · rcases List.mem_append.mp hm with h | h
      · split at h
        · exact emitRead_consistent h
        · simp at h
      · simpa [Job.basePath, Job.baseMap] using hrec _ _ _ h
    · simp at hm

theorem stepFrame_consistent {rec : List Nat → Job → List Match} {stack : List Nat}
    {frame : Frame} {rest : List Frame} {path : List String} {tm : TraceMap}
    (hrec : ∀ st j m, m ∈ rec st j → Consistent j.basePath j.baseMap m) :
    ∀ m ∈ stepFrame rec stack frame rest path tm, Consistent path tm m := by
  intro m hm
  cases frame with
  | member pid isObject propName =>
    simp only [stepFrame] at hm
    split at hm
    · cases propName with
      | none => simp at hm
      | some key =>
        cases hl : lookupChild tm key with
        | none => simp [hl] at hm
        | some next =>
          simp only [hl] at hm
          rcases List.mem_append.mp hm with h | h
          · exact consistent_extend hl (emitRead_consistent h)
          · exact consistent_extend hl
              (by simpa [Job.basePath, Job.baseMap] using hrec _ _ _ h)
    · simp at hm
  | callF pid isCallee arg0 =>
    simp only [stepFrame] at hm
    split at hm
    · cases hc : markerOf tm .call with
      | none => simp [hc] at hm
      | some e =>
        simp only [hc, List.mem_singleton] at hm
        subst hm
        exact ⟨[], tm, by simp, by simp [lookupPath], hc⟩
    · simp at hm
  | newF pid isCallee =>
    simp only [stepFrame] at hm
    split at hm
    · cases hc : markerOf tm .construct with
      | none => simp [hc] at hm
      | some e =>
        simp only [hc, List.mem_singleton] at hm
        subst hm
        exact ⟨[], tm, by simp, by simp [lookupPath], hc⟩
    · simp at hm
  | assignExprF pid isRight left =>
    simp only [stepFrame] at hm
    split at hm
    · rcases List.mem_append.mp hm with h | h
      · simpa [Job.basePath, Job.baseMap] using hrec _ _ _ h
      · simpa [Job.basePath, Job.baseMap] using hrec _ _ _ h
    · simp at hm
  | assignPatF pid isRight left =>
    simp only [stepFrame] at hm
    split at hm
    · simpa [Job.basePath, Job.baseMap] using hrec _ _ _ hm
    · simp at hm
  | declaratorF pid isInit idPat =>
    simp only [stepFrame] at hm
    split at hm
    · simpa [Job.basePath, Job.baseMap] using hrec _ _ _ hm
    · simp at hm
  | sentinelOther pid => simp [stepFrame] at hm
  | transparent pid => simp [stepFrame] at hm

theorem stepProp_consistent {rec : List Nat → Job → List Match} {stack : List Nat}
    {chain : List Frame} {path : List String} {tm : TraceMap}
    (hrec : ∀ st j m, m ∈ rec st j → Consistent j.basePath j.baseMap m) :
    ∀ m ∈ stepProp rec stack chain path tm, Consistent path tm m := by
  intro m hm
  unfold stepProp at hm
  split at hm
  · simp at hm
  · exact stepFrame_consistent hrec m hm

theorem stepLhs_consistent {t : Tracer} {rec : List Nat → Job → List Match} {stack : List Nat}
    {pat : Pattern} {path : List String} {tm : TraceMap}
    (hrec : ∀ st j m, m ∈ rec st j → Consistent j.basePath j.baseMap m) :
    ∀ m ∈ stepLhs t rec stack pat path tm, Consistent path tm m := by
  intro m hm
  unfold stepLhs at hm
  cases pat with
  | ident nid name scopes =>
    cases hv : _findVariable t name scopes with
    | none => simp [hv] at hm
    | some v =>
      simp only [hv] at hm
      simpa [Job.basePath, Job.baseMap] using hrec _ _ _ hm
  | objectPat props =>
    simp only [List.mem_flatMap] at hm
    obtain ⟨p, _, hm⟩ := hm
    obtain ⟨pid, pkey, psub⟩ := p
    cases pkey with
    | none => simp at hm
    | some key =>
      cases hl : lookupChild tm key with
      | none => simp [hl] at hm
      | some next =>
        simp only [hl] at hm
        rcases List.mem_append.mp hm with h | h
        · exact consistent_extend hl (emitRead_consistent h)
        · exact consistent_extend hl
            (by simpa [Job.basePath, Job.baseMap] using hrec _ _ _ h)
  | assignPat left => simpa [Job.basePath, Job.baseMap] using hrec _ _ _ hm
  | otherPat => simp at hm

/-- Every record produced by the internal iterators is path/entry
consistent with the invocation's own `path` and `traceMap` arguments. -/
theorem run_consistent (t : Tracer) :
    ∀ fuel stack job m, m ∈ run t fuel stack job →
      Consistent job.basePath job.baseMap m := by
  intro fuel
  induction fuel with
  | zero => intro stack job m hm; simp [run] at hm
  | succ fuel ih =>
    intro stack job m hm
    cases job with
    | varJob v path tm shouldReport =>
      simp only [run] at hm
      exact stepVar_consistent (fun st j m hm => ih st j m hm) m hm
    | propJob chain path tm =>
      simp only [run] at hm
      exact stepProp_consistent (fun st j m hm => ih st j m hm) m hm
    | lhsJob pat path tm =>
      simp only [run] at hm
      exact stepLhs_consistent (fun st j m hm => ih st j m hm) m hm

end RefTracer

namespace RefTracer

theorem stepVar_read_extends {rec : List Nat → Job → List Match} {stack : List Nat}
    {v : Nat × VariableData} {path : List String} {tm : TraceMap}
    (hrec : ∀ st j, Job.noReport j → ∀ m ∈ rec st j, m.type = .read →
      j.basePath.length < m.path.length) :
    ∀ m ∈ stepVar rec stack v path tm false, m.type = .read →
      path.length < m.path.length := by
  intro m hm hr
  unfold stepVar at hm
  split at hm
  · simp at hm
  · simp only [List.mem_flatMap] at hm
    obtain ⟨ref, _, hm⟩ := hm
    split at hm
    · simp only [if_neg Bool.false_ne_true, List.nil_append] at hm
      simpa [Job.basePath] using hrec _ _ (by simp [Job.noReport]) m hm hr
    · simp at hm

theorem emitRead_path {nid : Nat} {p : List String} {tm : TraceMap} {m : Match}
    (h : m ∈ emitRead nid p tm) : m.path = p := by
  unfold emitRead at h
  cases hr : markerOf tm .read with
  | none => simp [hr] at h
  | some e => simp only [hr, List.mem_singleton] at h; subst h; rfl

theorem stepFrame_read_extends {rec : List Nat → Job → List Match} {stack : List Nat}
    {frame : Frame} {rest : List Frame} {path : List String} {tm : TraceMap}
    (hrec : ∀ st j, Job.noReport j → ∀ m ∈ rec st j, m.type = .read →
      j.basePath.length < m.path.length) :
    ∀ m ∈ stepFrame rec stack frame rest path tm, m.type = .read →
      path.length < m.path.length := by
  intro m hm hr
  cases frame with
  | member pid isObject propName =>
    simp only [stepFrame] at hm
    split at hm
    · cases propName with
      | none => simp at hm
      | some key =>
        cases hl : lookupChild tm key with
        | none => simp [hl] at hm
        | some next =>
          simp only [hl] at hm
          rcases List.mem_append.mp hm with h | h
          · have := emitRead_path h
            simp [this]
          · have := hrec _ _ (by simp [Job.noReport]) m h hr
            simp only [Job.basePath, List.length_append, List.length_singleton] at this
            omega
    · simp at hm
  | callF pid isCallee arg0 =>
    simp only [stepFrame] at hm
    split at hm
    · cases hc : markerOf tm .call with
      | none => simp [hc] at hm
      | some e =>
        simp only [hc, List.mem_singleton] at hm
        subst hm
        simp at hr
    · simp at hm
  | newF pid isCallee =>
    simp only [stepFrame] at hm
    split at hm
    · cases hc : markerOf tm .construct with
      | none => simp [hc] at hm
      | some e =>
        simp only [hc, List.mem_singleton] at hm
        subst hm
        simp at hr
    · simp at hm
  | assignExprF pid isRight left =>
    simp only [stepFrame] at hm
    split at hm
    · rcases List.mem_append.mp hm with h | h
      · simpa [Job.basePath] using hrec _ _ (by simp [Job.noReport]) m h hr
      · simpa [Job.basePath] using hrec _ _ (by simp [Job.noReport]) m h hr
    · simp at hm
  | assignPatF pid isRight left =>
    simp only [stepFrame] at hm
    split at hm
    · simpa [Job.basePath] using hrec _ _ (by simp [Job.noReport]) m hm hr
    · simp at hm
  | declaratorF pid isInit idPat =>
    simp only [stepFrame] at hm
    split at hm
    · simpa [Job.basePath] using hrec _ _ (by simp [Job.noReport]) m hm hr
    · simp at hm
  | sentinelOther pid => simp [stepFrame] at hm
  | transparent pid => simp [stepFrame] at hm

theorem stepLhs_read_extends {t : Tracer} {rec : List Nat → Job → List Match} {stack : List Nat}
    {pat : Pattern} {path : List String} {tm : TraceMap}
    (hrec : ∀ st j, Job.noReport j → ∀ m ∈ rec st j, m.type = .read →
      j.basePath.length < m.path.length) :
    ∀ m ∈ stepLhs t rec stack pat path tm, m.type = .read →
      path.length < m.path.length := by
  intro m hm hr
  unfold stepLhs at hm
  cases pat with
  | ident nid name scopes =>
    cases hv : _findVariable t name scopes with
    | none => simp [hv] at hm
    | some v =>
      simp only [hv] at hm
      simpa [Job.basePath] using hrec _ _ (by simp [Job.noReport]) m hm hr
  | objectPat props =>
    simp only [List.mem_flatMap] at hm
    obtain ⟨p, _, hm⟩ := hm
    obtain ⟨pid, pkey, psub⟩ := p
    cases pkey with
    | none => simp at hm
    | some key =>
      cases hl : lookupChild tm key with
      | none => simp [hl] at hm
      | some next =>
        simp only [hl] at hm
        rcases List.mem_append.mp hm with h | h
        · have := emitRead_path h
          simp [this]
        · have := hrec _ _ (by simp [Job.noReport]) m h hr
          simp only [Job.basePath, List.length_append, List.length_singleton] at this
          omega
  | assignPat left => simpa [Job.basePath] using hrec _ _ (by simp [Job.noReport]) m hm hr
  | otherPat => simp at hm

/-- When propagation starts with `shouldReport = false`, every READ record
has a path strictly longer than the invocation's base path (no READ is
reported at the base path itself). -/
theorem run_read_extends (t : Tracer) :
    ∀ fuel stack job, Job.noReport job → ∀ m ∈ run t fuel stack job,
      m.type = .read → job.basePath.length < m.path.length := by
  intro fuel
  induction fuel with
  | zero => intro stack job _ m hm; simp [run] at hm
  | succ fuel ih =>
    intro stack job hnr m hm hr
    cases job with
    | varJob v path tm shouldReport =>
      simp only [run] at hm
      cases shouldReport with
      | false => exact stepVar_read_extends (fun st j h m hm hr => ih st j h m hm hr) m hm hr
      | true => exact absurd hnr (by simp [Job.noReport])
    | propJob chain path tm =>
      simp only [run] at hm
      unfold stepProp at hm
      split at hm
      · simp at hm
      · exact stepFrame_read_extends (fun st j h m hm hr => ih st j h m hm hr) m hm hr
    | lhsJob pat path tm =>
      simp only [run] at hm
      exact stepLhs_read_extends (fun st j h m hm hr => ih st j h m hm hr) m hm hr

/-- Every record of the global-object strategy is path/entry consistent
with the caller-supplied trace map. -/
theorem iterateGlobal_consistent (t : Tracer) (fuel : Nat) (tm : TraceMap) :
    ∀ m ∈ iterateGlobalReferences t fuel tm, Consistent [] tm m := by
  intro m hm
  unfold iterateGlobalReferences at hm
  rcases List.mem_append.mp hm with h | h
  · simp only [List.mem_flatMap] at h
    obtain ⟨key, _, h⟩ := h
    cases hl : lookupChild tm key with
    | none => simp [hl] at h
    | some next =>
      simp only [hl] at h
      cases hv : globalVar t key with
      | none => simp [hv] at h
      | some v =>
        simp only [hv] at h
        split at h
        · simp at h
        · exact consistent_extend hl
            (by simpa [Job.basePath, Job.baseMap] using run_consistent t fuel [] _ m h)
  · simp only [List.mem_flatMap] at h
    obtain ⟨key, _, h⟩ := h
    cases hv : globalVar t key with
    | none => simp [hv] at h
    | some v =>
      simp only [hv] at h
      split at h
      · simp at h
      · simpa [Job.basePath, Job.baseMap] using run_consistent t fuel [] _ m h

/-- Every record of the CommonJS strategy is path/entry consistent with
the caller-supplied trace map. -/
theorem iterateCjs_consistent (t : Tracer) (fuel : Nat) (tm : TraceMap) :
    ∀ m ∈ iterateCjsReferences t fuel tm, Consistent [] tm m := by
  intro m hm
  unfold iterateCjsReferences at hm
  cases hv : globalVar t "require" with
  | none => simp [hv] at hm
  | some v =>
    simp only [hv] at hm
    split at hm
    · simp at hm
    · simp only [List.mem_flatMap] at hm
      obtain ⟨ref, _, hm⟩ := hm
      obtain ⟨rnid, rread, rchain⟩ := ref
      cases rchain with
      | nil => simp at hm
      | cons f rest =>
        cases f with
        | callF pid isCallee arg0 =>
          simp only at hm
          split at hm
          · cases arg0 with
            | none => simp at hm
            | some key =>
              cases hl : lookupChild tm key with
              | none => simp [hl] at hm
              | some next =>
                simp only [hl] at hm
                rcases List.mem_append.mp hm with h | h
                · exact consistent_extend hl (emitRead_consistent h)
                · exact consistent_extend hl
                    (by simpa [Job.basePath, Job.baseMap] using run_consistent t fuel [] _ m h)
          · simp at hm
        | member a b c => simp at hm
        | newF a b => simp at hm
        | assignExprF a b c => simp at hm
        | assignPatF a b c => simp at hm
        | declaratorF a b c => simp at hm
        | sentinelOther a => simp at hm
        | transparent a => simp at hm

end RefTracer

namespace RefTracer

theorem Out.mem_seq {a b : Out} {m : Match} (h : m ∈ (a.seq b).records) :
    m ∈ a.records ∨ m ∈ b.records := by
  unfold Out.seq at h
  split at h
  · exact List.mem_append.mp h
  · exact Or.inl h

theorem mem_foldSeq {α : Type} (f : α → Out) :
    ∀ (l : List α) (init : Out) (m : Match),
      m ∈ (l.foldl (fun acc x => acc.seq (f x)) init).records →
      m ∈ init.records ∨ ∃ x ∈ l, m ∈ (f x).records := by
  intro l
  induction l with
  | nil => intro init m hm; exact Or.inl hm
  | cons a l ih =>
    intro init m hm
    simp only [List.foldl_cons] at hm
    rcases ih _ m hm with h | ⟨x, hx, h⟩
    · rcases Out.mem_seq h with h | h
      · exact Or.inl h
      · exact Or.inr ⟨a, by simp, h⟩
    · exact Or.inr ⟨x, by simp [hx], h⟩

theorem filterIdx_high (l : List String) :
    ∀ i, 2 ≤ i → filterIdx exceptDefault i l = l := by
  induction l with
  | nil => intro i _; rfl
  | cons a l ih =>
    intro i hi
    have : exceptDefault a i = true := by
      unfold exceptDefault
      have : (i == 1) = false := by
        simp only [beq_eq_false_iff_ne]
        omega
      simp [this]
    simp [filterIdx, this, ih (i + 1) (by omega)]

theorem filterFull (a : String) (ext : List String) :
    filterWithIndex exceptDefault (a :: ext) = a :: tailDefault ext := by
  unfold filterWithIndex
  have h0 : exceptDefault a 0 = true := by unfold exceptDefault; simp
  cases ext with
  | nil => simp [filterIdx, h0, tailDefault]
  | cons b r =>
    have hr := filterIdx_high r 2 (by omega)
    cases hb : b == "default" with
    | true =>
      have h1 : exceptDefault b 1 = false := by unfold exceptDefault; simp [hb]
      simp [filterIdx, h0, h1, hr, tailDefault, hb]
    | false =>
      have h1 : exceptDefault b 1 = true := by unfold exceptDefault; simp [hb]
      simp [filterIdx, h0, h1, hr, tailDefault, hb]

theorem find?_filter_of_imp {α : Type} (p q : α → Bool) :
    ∀ l : List α, (∀ x, p x = true → q x = true) →
      (l.filter q).find? p = l.find? p := by
  intro l h
  induction l with
  | nil => rfl
  | cons a l ih =>
    cases hq : q a with
    | true =>
      cases hp : p a with
      | true => simp [List.filter_cons, hq, List.find?_cons, hp]
      | false => simp [List.filter_cons, hq, List.find?_cons, hp, ih]
    | false =>
      have hp : p a = false := by
        cases hpa : p a
        · rfl
        · rw [h a hpa] at hq; exact absurd hq (by simp)
      simp [List.filter_cons, hq, List.find?_cons, hp, ih]

theorem lookupChild_wrap_ne (ntm : TraceMap) (k : String) (hk : (k == "default") = false) :
    lookupChild (wrapMap .legacy ntm) k = lookupChild ntm k := by
  obtain ⟨cs, r, c, kk, e⟩ := ntm
  unfold wrapMap lookupChild
  simp only [TraceMap.children]
  have hhead : (("default" : String) == k) = false := by
    simp only [beq_eq_false_iff_ne] at hk ⊢
    exact fun h => hk h.symm
  rw [List.find?_cons_of_neg _ (by simp [hhead])]
  rw [find?_filter_of_imp (fun p => p.1 == k) (fun p => p.1 != "default") cs
    (fun x hx => by
      simp only [beq_iff_eq] at hx
      simp only [bne_iff_ne, ne_eq, hx]
      simp only [beq_eq_false_iff_ne, ne_eq] at hk
      exact hk)]

/-- The interop wrap preserves marker-bearing path lookups, after dropping
the wrapper's artificial `default` key: this is where strict mode and the
absence of an own `default` key matter. -/
theorem wrapOk {mode : Mode} {ntm : TraceMap}
    (hsafe : mode = .strict ∨ lookupChild ntm "default" = none) :
    ∀ (ext : List String) (tmEnd : TraceMap) (ty : MarkerType) (e : Nat),
      lookupPath (wrapMap mode ntm) ext = some tmEnd →
      markerOf tmEnd ty = some e →
      ∃ tmEnd2, lookupPath ntm (tailDefault ext) = some tmEnd2 ∧
        markerOf tmEnd2 ty = some e := by
  intro ext tmEnd ty e hlp hmk
  cases ext with
  | nil =>
    simp only [lookupPath, Option.some_inj] at hlp
    subst hlp
    cases mode with
    | strict =>
      exfalso
      cases ty <;> simp [wrapMap, markerOf] at hmk
    | legacy =>
      refine ⟨ntm, by simp [lookupPath, tailDefault], ?_⟩
      cases ty <;> simpa [wrapMap, markerOf] using hmk
  | cons k rest =>
    cases hk : k == "default" with
    | true =>
      have hkd : k = "default" := by simpa [beq_iff_eq] using hk
      subst hkd
      cases mode with
      | strict =>
        have : lookupChild (wrapMap .strict ntm) "default" = some ntm := by
          simp [wrapMap, lookupChild, TraceMap.children]
        simp only [lookupPath, this] at hlp
        exact ⟨tmEnd, by simpa [tailDefault] using hlp, hmk⟩
      | legacy =>
        have hnd : lookupChild ntm "default" = none := by
          rcases hsafe with h | h
          · cases h
          · exact h
        have : lookupChild (wrapMap .legacy ntm) "default" = some ntm := by
          unfold wrapMap
          rw [hnd]
          simp [lookupChild, TraceMap.children]
        simp only [lookupPath, this] at hlp
        exact ⟨tmEnd, by simpa [tailDefault] using hlp, hmk⟩
    | false =>
      have htd : tailDefault (k :: rest) = k :: rest := by simp [tailDefault, hk]
      cases mode with
      | strict =>
        exfalso
        have : lookupChild (wrapMap .strict ntm) k = none := by
          simp only [wrapMap, lookupChild, TraceMap.children]
          rw [List.find?_cons_of_neg _ (by
            simp only [beq_eq_false_iff_ne, ne_eq] at hk
            simp only [Bool.not_eq_true, beq_eq_false_iff_ne, ne_eq]
            exact fun h => hk h.symm)]
          simp [List.find?_nil]
        simp [lookupPath, this] at hlp
      | legacy =>
        rw [htd]
        have := lookupChild_wrap_ne ntm k hk
        simp only [lookupPath, this] at hlp
        cases hlc : lookupChild ntm k with
        | none => rw [hlc] at hlp; simp at hlp
        | some c =>
          rw [hlc] at hlp
          refine ⟨tmEnd, ?_, hmk⟩
          simp only [lookupPath, hlc]
          simpa using hlp

end RefTracer

namespace RefTracer

theorem emitRead_marker {nid : Nat} {p : List String} {tm : TraceMap} {m : Match}
    (h : m ∈ emitRead nid p tm) :
    m.type = .read ∧ markerOf tm .read = some m.entry := by
  unfold emitRead at h
  cases hr : markerOf tm .read with
  | none => simp [hr] at h
  | some e =>
    simp only [hr, List.mem_singleton] at h
    subst h
    exact ⟨rfl, by simp [hr]⟩

theorem importRefs_consistent {t : Tracer} {fuel : Nat} {spec : ModSpecifier}
    {path : List String} {tm : TraceMap} :
    ∀ m ∈ (_iterateImportReferences t fuel spec path tm).records, Consistent path tm m := by
  intro m hm
  cases spec with
  | importSpec nid imported localName localScopes =>
    simp only [_iterateImportReferences] at hm
    cases hl : lookupChild tm imported with
    | none => simp [hl] at hm
    | some next =>
      simp only [hl] at hm
      cases hv : _findVariable t localName localScopes with
      | none =>
        simp only [hv] at hm
        exact consistent_extend hl (emitRead_consistent hm)
      | some v =>
        simp only [hv] at hm
        rcases List.mem_append.mp hm with h | h
        · exact consistent_extend hl (emitRead_consistent h)
        · exact consistent_extend hl
            (by simpa [Job.basePath, Job.baseMap] using run_consistent t fuel [] _ m h)
  | importDefaultSpec nid localName localScopes =>
    simp only [_iterateImportReferences] at hm
    cases hl : lookupChild tm "default" with
    | none => simp [hl] at hm
    | some next =>
      simp only [hl] at hm
      cases hv : _findVariable t localName localScopes with
      | none =>
        simp only [hv] at hm
        exact consistent_extend hl (emitRead_consistent hm)
      | some v =>
        simp only [hv] at hm
        rcases List.mem_append.mp hm with h | h
        · exact consistent_extend hl (emitRead_consistent h)
        · exact consistent_extend hl
            (by simpa [Job.basePath, Job.baseMap] using run_consistent t fuel [] _ m h)
  | importNamespaceSpec nid localName localScopes =>
    simp only [_iterateImportReferences] at hm
    cases hv : _findVariable t localName localScopes with
    | none => simp [hv] at hm
    | some v =>
      simp only [hv] at hm
      simpa [Job.basePath, Job.baseMap] using run_consistent t fuel [] _ m hm
  | exportSpec nid localName =>
    simp only [_iterateImportReferences] at hm
    cases hl : lookupChild tm localName with
    | none => simp [hl] at hm
    | some next =>
      simp only [hl] at hm
      exact consistent_extend hl (emitRead_consistent hm)

theorem importRefs_read_extends {t : Tracer} {fuel : Nat} {spec : ModSpecifier}
    {path : List String} {tm : TraceMap} :
    ∀ m ∈ (_iterateImportReferences t fuel spec path tm).records, m.type = .read →
      path.length < m.path.length := by
  intro m hm hr
  cases spec with
  | importSpec nid imported localName localScopes =>
    simp only [_iterateImportReferences] at hm
    cases hl : lookupChild tm imported with
    | none => simp [hl] at hm
    | some next =>
      simp only [hl] at hm
      cases hv : _findVariable t localName localScopes with
      | none =>
        simp only [hv] at hm
        simp [emitRead_path hm]
      | some v =>
        simp only [hv] at hm
        rcases List.mem_append.mp hm with h | h
        · simp [emitRead_path h]
        · have := run_read_extends t fuel [] _ (by simp [Job.noReport]) m h hr
          simp only [Job.basePath, List.length_append, List.length_singleton] at this
          omega
  | importDefaultSpec nid localName localScopes =>
    simp only [_iterateImportReferences] at hm
    cases hl : lookupChild tm "default" with
    | none => simp [hl] at hm
    | some next =>
      simp only [hl] at hm
      cases hv : _findVariable t localName localScopes with
      | none =>
        simp only [hv] at hm
        simp [emitRead_path hm]
      | some v =>
        simp only [hv] at hm
        rcases List.mem_append.mp hm with h | h
        · simp [emitRead_path h]
        · have := run_read_extends t fuel [] _ (by simp [Job.noReport]) m h hr
          simp only [Job.basePath, List.length_append, List.length_singleton] at this
          omega
  | importNamespaceSpec nid localName localScopes =>
    simp only [_iterateImportReferences] at hm
    cases hv : _findVariable t localName localScopes with
    | none => simp [hv] at hm
    | some v =>
      simp only [hv] at hm
      simpa [Job.basePath] using run_read_extends t fuel [] _ (by simp [Job.noReport]) m hm hr
  | exportSpec nid localName =>
    simp only [_iterateImportReferences] at hm
    cases hl : lookupChild tm localName with
    | none => simp [hl] at hm
    | some next =>
      simp only [hl] at hm
      simp [emitRead_path hm]

theorem lookupChild_mem {tm : TraceMap} {key : String} {c : TraceMap}
    (h : lookupChild tm key = some c) : ∃ p ∈ tm.children, p.2 = c := by
  unfold lookupChild at h
  cases hf : tm.children.find? (fun p => p.1 == key) with
  | none => simp [hf] at h
  | some pr =>
    exact ⟨pr, List.mem_of_find?_eq_some hf, by simpa [hf] using h⟩

theorem esmSpecLoop_consistent {t : Tracer} {fuel : Nat} {specs : List ModSpecifier}
    {moduleId : String} {tm ntm : TraceMap}
    (hl : lookupChild tm moduleId = some ntm)
    (hsafe : ntm.esm = false → t.mode = .strict ∨ lookupChild ntm "default" = none) :
    ∀ m ∈ (esmSpecLoop t fuel specs [moduleId] ntm).records, Consistent [] tm m := by
  intro m hm
  unfold esmSpecLoop at hm
  rcases mem_foldSeq _ specs _ m hm with h | ⟨spec, _, h⟩
  · simp at h
  · cases hesm : ntm.esm with
    | true =>
      simp only [hesm, if_true, processSpecRes, if_pos] at h
      exact consistent_extend hl (importRefs_consistent m h)
    | false =>
      simp only [hesm, if_false, processSpecRes] at h
      rw [if_neg (by simp)] at h
      obtain ⟨r, hr, hfm⟩ := List.mem_filterMap.mp h
      split at hfm
      · simp only [Option.some_inj] at hfm
        obtain ⟨ext, tmEnd, hp, hlp, hmk⟩ := importRefs_consistent r hr
        obtain ⟨tmEnd2, hlp2, hmk2⟩ := wrapOk (hsafe hesm) ext tmEnd r.type r.entry hlp hmk
        refine ⟨moduleId :: tailDefault ext, tmEnd2, ?_, ?_, ?_⟩
        · rw [← hfm]
          simp only
          rw [hp]
          simpa using filterFull moduleId ext
        · simp only [List.nil_append, lookupPath, hl]
          exact hlp2
        · rw [← hfm]
          exact hmk2
      · simp at hfm

theorem esmStmt_consistent {t : Tracer} {fuel : Nat} {tm : TraceMap}
    (hsafe : t.mode = .strict ∨
      ∀ p ∈ tm.children, p.2.esm = true ∨ lookupChild p.2 "default" = none) :
    ∀ st, ∀ m ∈ (esmStmt t fuel tm st).records, Consistent [] tm m := by
  have hsafe1 : ∀ {moduleId ntm}, lookupChild tm moduleId = some ntm → ntm.esm = false →
      t.mode = .strict ∨ lookupChild ntm "default" = none := by
    intro moduleId ntm hl hesm
    rcases hsafe with h | h
    · exact Or.inl h
    · obtain ⟨pr, hpr, hpr2⟩ := lookupChild_mem hl
      rcases h pr hpr with h2 | h2
      · rw [hpr2] at h2; rw [h2] at hesm; cases hesm
      · rw [hpr2] at h2; exact Or.inr h2
  intro st m hm
  cases st with
  | importDecl nid src specs =>
    cases src with
    | none => simp [esmStmt] at hm
    | some moduleId =>
      simp only [esmStmt] at hm
      cases hl : lookupChild tm moduleId with
      | none => simp [hl] at hm
      | some ntm =>
        simp only [hl] at hm
        rcases Out.mem_seq hm with h | h
        · exact consistent_extend hl (emitRead_consistent h)
        · exact esmSpecLoop_consistent hl (hsafe1 hl) m h
  | exportNamedDecl nid src specs =>
    cases src with
    | none => simp [esmStmt] at hm
    | some moduleId =>
      simp only [esmStmt] at hm
      cases hl : lookupChild tm moduleId with
      | none => simp [hl] at hm
      | some ntm =>
        simp only [hl] at hm
        rcases Out.mem_seq hm with h | h
        · exact consistent_extend hl (emitRead_consistent h)
        · exact esmSpecLoop_consistent hl (hsafe1 hl) m h
  | exportAllDecl nid src =>
    cases src with
    | none => simp [esmStmt] at hm
    | some moduleId =>
      simp only [esmStmt] at hm
      cases hl : lookupChild tm moduleId with
      | none => simp [hl] at hm
      | some ntm =>
        simp only [hl] at hm
        rcases List.mem_append.mp hm with h | h
        · exact consistent_extend hl (emitRead_consistent h)
        · simp only [List.mem_flatMap] at h
          obtain ⟨key, _, h⟩ := h
          cases hlk : lookupChild ntm key with
          | none => simp [hlk] at h
          | some sub =>
            simp only [hlk] at h
            exact consistent_extend hl (consistent_extend hlk (emitRead_consistent h))
  | exportDefaultDecl nid => simp [esmStmt] at hm
  | otherStmt nid => simp [esmStmt] at hm

/-- Path/entry consistency for the ES-module strategy, under the interop
condition: strict mode, or every CommonJS-shaped module map owns no
`default` key. -/
theorem esm_consistent (t : Tracer) (fuel : Nat) (tm : TraceMap)
    (hsafe : t.mode = .strict ∨
      ∀ p ∈ tm.children, p.2.esm = true ∨ lookupChild p.2 "default" = none) :
    ∀ m ∈ (iterateEsmReferences t fuel tm).records, Consistent [] tm m := by
  intro m hm
  unfold iterateEsmReferences at hm
  rcases mem_foldSeq _ t.programBody _ m hm with h | ⟨st, _, h⟩
  · simp at h
  · exact esmStmt_consistent hsafe st m h

end RefTracer

namespace RefTracer

theorem esmSpecLoop_read {t : Tracer} {fuel : Nat} {specs : List ModSpecifier}
    {moduleId : String} {ntm : TraceMap} :
    ∀ m ∈ (esmSpecLoop t fuel specs [moduleId] ntm).records,
      2 ≤ m.path.length ∨ m.type ≠ .read := by
  intro m hm
  unfold esmSpecLoop at hm
  rcases mem_foldSeq _ specs _ m hm with h | ⟨spec, _, h⟩
  · simp at h
  · cases hesm : ntm.esm with
    | true =>
      simp only [hesm, if_true, processSpecRes, if_pos] at h
      by_cases hr : m.type = .read
      · exact Or.inl (by simpa using importRefs_read_extends m h hr)
      · exact Or.inr hr
    | false =>
      simp only [hesm, if_false, processSpecRes] at h
      rw [if_neg (by simp)] at h
      obtain ⟨r, hr, hfm⟩ := List.mem_filterMap.mp h
      split at hfm
      · rename_i hcond
        simp only [Option.some_inj] at hfm
        subst hfm
        simp only [Bool.or_eq_true] at hcond
        rcases hcond with hc | hc
        · exact Or.inl (of_decide_eq_true hc)
        · exact Or.inr (by simpa using hc)
      · simp at hfm

theorem esmStmt_read {t : Tracer} {fuel : Nat} {tm : TraceMap}
    (hnoRead : ∀ p ∈ tm.children, markerOf p.2 .read = none) :
    ∀ st, ∀ m ∈ (esmStmt t fuel tm st).records, 2 ≤ m.path.length ∨ m.type ≠ .read := by
  have hexcl : ∀ {nid moduleId ntm} (m : Match), lookupChild tm moduleId = some ntm →
      m ∈ emitRead nid [moduleId] ntm → False := by
    intro nid moduleId ntm m hl hm
    obtain ⟨pr, hpr, hpr2⟩ := lookupChild_mem hl
    have hmk := (emitRead_marker hm).2
    have h2 := hnoRead pr hpr
    rw [hpr2] at h2
    rw [h2] at hmk
    cases hmk
  intro st m hm
  cases st with
  | importDecl nid src specs =>
    cases src with
    | none => simp [esmStmt] at hm
    | some moduleId =>
      simp only [esmStmt] at hm
      cases hl : lookupChild tm moduleId with
      | none => simp [hl] at hm
      | some ntm =>
        simp only [hl] at hm
        rcases Out.mem_seq hm with h | h
        · exact absurd h (fun h => hexcl m hl h)
        · exact esmSpecLoop_read m h
  | exportNamedDecl nid src specs =>
    cases src with
    | none => simp [esmStmt] at hm
    | some moduleId =>
      simp only [esmStmt] at hm
      cases hl : lookupChild tm moduleId with
      | none => simp [hl] at hm
      | some ntm =>
        simp only [hl] at hm
        rcases Out.mem_seq hm with h | h
        · exact absurd h (fun h => hexcl m hl h)
        · exact esmSpecLoop_read m h
  | exportAllDecl nid src =>
    cases src with
    | none => simp [esmStmt] at hm
    | some moduleId =>
      simp only [esmStmt] at hm
      cases hl : lookupChild tm moduleId with
      | none => simp [hl] at hm
      | some ntm =>
        simp only [hl] at hm
        rcases List.mem_append.mp hm with h | h
        · exact absurd h (fun h => hexcl m hl h)
        · simp only [List.mem_flatMap] at h
          obtain ⟨key, _, h⟩ := h
          cases hlk : lookupChild ntm key with
          | none => simp [hlk] at h
          | some sub =>
            simp only [hlk] at h
            exact Or.inl (by simp [emitRead_path h])
  | exportDefaultDecl nid => simp [esmStmt] at hm
  | otherStmt nid => simp [esmStmt] at hm

/-- When no module map at the top level of the trace map carries a READ
marker, every record of the ES-module strategy either has a path of at
least two segments or is not a READ record. -/
theorem iterateEsm_read (t : Tracer) (fuel : Nat) (tm : TraceMap)
    (hnoRead : ∀ p ∈ tm.children, markerOf p.2 .read = none) :
    ∀ m ∈ (iterateEsmReferences t fuel tm).records,
      2 ≤ m.path.length ∨ m.type ≠ .read := by
  intro m hm
  unfold iterateEsmReferences at hm
  rcases mem_foldSeq _ t.programBody _ m hm with h | ⟨st, _, h⟩
  · simp at h
  · exact esmStmt_read hnoRead st m h

/-- The traversal-stack guard: a variable already on the stack produces
nothing, regardless of fuel. -/
theorem run_var_in_stack (t : Tracer) (fuel : Nat) (stack : List Nat)
    (v : Nat × VariableData) (path : List String) (tm : TraceMap) (shouldReport : Bool)
    (h : v.1 ∈ stack) : run t fuel stack (.varJob v path tm shouldReport) = [] := by
  cases fuel with
  | zero => rfl
  | succ fuel => simp [run, stepVar, h]

theorem c4_prop_aux : ∀ (F : Nat) (tm : TraceMap), run trC4 F [9]
    (.propJob [.declaratorF 81 true (.ident 82 "x" [[("x", 9)]]), .sentinelOther 83]
      ["x"] tm) = [] := by
  intro F tm
  cases F with
  | zero => rfl
  | succ F =>
    cases F with
    | zero => rfl
    | succ F =>
      exact run_var_in_stack trC4 F [9] (9, vdXself) ["x"] tm false (by simp)

end RefTracer

namespace RefTracer

/-- Claim C2: the global-object strategy emits matches only through
global-scope variables with zero declaring definitions — any key or alias
whose variable is absent or declared contributes nothing (so the whole
strategy yields nothing when every candidate is absent or declared); a
top-level key propagates the same-named undeclared global with
`shouldReport = true` and path `[key]` (the `a` match), an alias name
propagates the whole map with `shouldReport = false` and empty initial
path (the `window.x` match reported at path `["x"]`); the program
`function window() {} … window.x` produces no match. -/
theorem c2_global_undeclared_only :
    (∀ (t : Tracer) (fuel : Nat) (tm : TraceMap),
      (∀ key ∈ tm.children.map Prod.fst ++ t.globalObjectNames,
        (globalVar t key).all (fun v => v.2.defsCount != 0) = true) →
      iterateGlobalReferences t fuel tm = []) ∧
    iterateGlobalReferences trC2 10 tmC2 =
      [⟨10, ["a"], .read, 7⟩, ⟨21, ["x"], .read, 9⟩] ∧
    iterateGlobalReferences trC2n 10 tmC2n = [] := by
  refine ⟨?_, by decide, by decide⟩
  intro t fuel tm hdecl
  unfold iterateGlobalReferences
  rw [List.append_eq_nil]
  constructor
  · rw [List.flatMap_eq_nil_iff]
    intro key hk
    have h := hdecl key (List.mem_append.mpr (Or.inl hk))
    cases hl : lookupChild tm key with
    | none => simp [hl]
    | some ntm =>
      cases hv : globalVar t key with
      | none => simp [hl, hv]
      | some v =>
        rw [hv] at h
        simp only [Option.all_some, bne_iff_ne, ne_eq] at h
        simp [hl, hv, h]
  · rw [List.flatMap_eq_nil_iff]
    intro key hk
    have h := hdecl key (List.mem_append.mpr (Or.inr hk))
    cases hv : globalVar t key with
    | none => simp [hv]
    | some v =>
      rw [hv] at h
      simp only [Option.all_some, bne_iff_ne, ne_eq] at h
      simp [hv, h]

/-- Witness for C2 at a concrete input: the shadowed-`window` scenario
discharges the "every candidate absent or declared" hypothesis. -/
theorem c2_witness : iterateGlobalReferences trC2n 10 tmC2n = [] :=
  c2_global_undeclared_only.1 trC2n 10 tmC2n (by decide)

/-- Claim C3: the CommonJS strategy emits nothing when the `require`
variable is absent or has a declaring definition; otherwise it processes
exactly the read references in callee position of a call with a constant
first argument keying the trace map — in the concrete scenario only
`require("m").foo` matches (its call-node READ at `["m"]` and the member
READ at `["m","foo"]`), while `f(require)`, `require(x)` and
`require("zzz")` contribute nothing. -/
theorem c3_cjs_require_guard :
    (∀ (t : Tracer) (fuel : Nat) (tm : TraceMap),
      (globalVar t "require").all (fun v => v.2.defsCount != 0) = true →
      iterateCjsReferences t fuel tm = []) ∧
    iterateCjsReferences trC3 10 tmC3 =
      [⟨31, ["m"], .read, 4⟩, ⟨32, ["m", "foo"], .read, 6⟩] ∧
    iterateCjsReferences trC3n 10 tmC3 = [] := by
  refine ⟨?_, by decide, by decide⟩
  intro t fuel tm h
  unfold iterateCjsReferences
  cases hv : globalVar t "require" with
  | none => simp [hv]
  | some v =>
    rw [hv] at h
    simp only [Option.all_some, bne_iff_ne, ne_eq] at h
    simp [hv, h]

/-- Witness for C3 at a concrete input: the locally redeclared `require`
discharges the declared-definition hypothesis. -/
theorem c3_witness : iterateCjsReferences trC3n 10 tmC3 = [] :=
  c3_cjs_require_guard.1 trC3n 10 tmC3 (by decide)

/-- Claim C4: `_iterateVariableReferences` returns the empty sequence
immediately when the variable is already on the traversal stack (any fuel,
any arguments), and on the self-alias `let x = x;` it terminates — the
result is the same single READ match for every fuel bound, with no
duplicate emission — because the recursive visit of `x` hits the guard. -/
theorem c4_cycle_guard (t : Tracer) (fuel : Nat) (stack : List Nat)
    (v : Nat × VariableData) (path : List String) (tm : TraceMap) (shouldReport : Bool)
    (h : v.1 ∈ stack) :
    _iterateVariableReferences t fuel stack v path tm shouldReport = [] ∧
    ∀ extraFuel : Nat,
      _iterateVariableReferences trC4 (extraFuel + 1) [] (9, vdXself) ["x"] tmC4 true =
        [⟨80, ["x"], .read, 5⟩] := by
  refine ⟨run_var_in_stack t fuel stack v path tm shouldReport h, ?_⟩
  intro extraFuel
  show run trC4 (extraFuel + 1) [] _ = _
  simp only [run]
  unfold stepVar
  simp [vdXself, emitRead, tmC4, markerOf, c4_prop_aux extraFuel]
  

/-- Witness for C4 at a concrete input: variable 9 on the stack. -/
theorem c4_witness :
    _iterateVariableReferences trC4 10 [9] (9, vdXself) ["x"] tmC4 true = [] ∧
    _iterateVariableReferences trC4 6 [] (9, vdXself) ["x"] tmC4 true =
      [⟨80, ["x"], .read, 5⟩] :=
  ⟨(c4_cycle_guard trC4 10 [9] (9, vdXself) ["x"] tmC4 true (by decide)).1,
   (c4_cycle_guard trC4 10 [9] (9, vdXself) ["x"] tmC4 true (by decide)).2 5⟩

/-- Claim C5: in legacy mode, with the CommonJS-shaped map
`{m: {foo: {READ: 11}}}`, `require("m").foo` (CommonJS strategy) and
`import {foo} from "m"; foo` (ES-module strategy) each yield one READ
match with path `["m","foo"]` and entry 11. -/
theorem c5_legacy_cjs_esm_equivalence :
    iterateCjsReferences trC5c 10 tmC5 = [⟨32, ["m", "foo"], .read, 11⟩] ∧
    iterateEsmReferences trC5e 10 tmC5 = ⟨[⟨101, ["m", "foo"], .read, 11⟩], true⟩ := by
  constructor
  · decide
  · decide

/-- Claim C6: in strict mode a CommonJS-shaped module map is exposed to
the import syntax only as the default export, and trivial `["default"]` READ
matches are suppressed: when no module map at the top level carries a READ
marker, every emitted record has at least two path segments or is not a
READ; concretely, a bare `import x from "m"` produces no match, and
`import {foo} from "m"` (named import against a default-only exposure)
produces no match either. -/
theorem c6_strict_default_suppression :
    (∀ (t : Tracer) (fuel : Nat) (tm : TraceMap), t.mode = .strict →
      (∀ p ∈ tm.children, (markerOf p.2 .read).isNone = true) →
      ∀ m ∈ (iterateEsmReferences t fuel tm).records,
        2 ≤ m.path.length ∨ m.type ≠ .read) ∧
    iterateEsmReferences trC6a 10 tmC6 = ⟨[], true⟩ ∧
    iterateEsmReferences trC6b 10 tmC6 = ⟨[], true⟩ := by
  refine ⟨?_, by decide, by decide⟩
  intro t fuel tm _ hno
  exact iterateEsm_read t fuel tm
    (fun p hp => Option.isNone_iff_eq_none.mp (hno p hp))

/-- Witness for C6 at a concrete input: the strict-mode scenario of
`import x from "m"; x.foo` and its emitted record. -/
theorem c6_witness :
    2 ≤ (⟨61, ["m", "foo"], .read, 3⟩ : Match).path.length ∨
      (⟨61, ["m", "foo"], .read, 3⟩ : Match).type ≠ .read :=
  c6_strict_default_suppression.1 trC10a 10 tmC6 rfl (by decide)
    ⟨61, ["m", "foo"], .read, 3⟩ (by decide)

/-- Claim C7: when the traced node is the right-hand side of an assignment
expression, property matching both delegates to the pattern unpacker on
the left-hand side (same path and trace map) and continues property-chain
matching on the assignment expression itself; so in
`(x = G.a).foo; x.foo;` both the direct chained access and the later read
of `x` produce the `["G","a","foo"]` READ match. -/
theorem c7_assignment_propagation :
    (∀ (t : Tracer) (fuel : Nat) (stack : List Nat) (nid : Nat) (left : Pattern)
       (rest : List Frame) (path : List String) (tm : TraceMap),
      _iteratePropertyReferences t (fuel + 1) stack (.assignExprF nid true left :: rest) path tm =
        _iterateLhsReferences t fuel stack left path tm ++
          _iteratePropertyReferences t fuel stack rest path tm) ∧
    iterateGlobalReferences trC7 10 tmC7 =
      [⟨127, ["G", "a", "foo"], .read, 8⟩, ⟨124, ["G", "a", "foo"], .read, 8⟩] := by
  refine ⟨?_, by decide⟩
  intro t fuel stack nid left rest path tm
  unfold _iteratePropertyReferences _iterateLhsReferences
  simp only [run]
  unfold stepProp
  simp [List.dropWhile_cons, Frame.isSentinel, stepFrame]

/-- Claim C8: object destructuring skips a property whose resolved key is
absent from the trace-map node (or unresolvable) while siblings are still
processed — a pattern all of whose properties miss yields nothing — and a
matching property extends the path and recurses into its value
sub-pattern: `const {z, y} = window.x; y();` with `{x: {y: {CALL: 8}}}`
yields exactly the one CALL match on `y()`. -/
theorem c8_object_destructuring :
    (∀ (t : Tracer) (fuel : Nat) (stack : List Nat)
       (props : List (Nat × Option String × Pattern)) (path : List String) (tm : TraceMap),
      (∀ p ∈ props, (p.2.1.all fun key => (lookupChild tm key).isNone) = true) →
      _iterateLhsReferences t (fuel + 1) stack (.objectPat props) path tm = []) ∧
    iterateGlobalReferences trC8 10 tmC8 = [⟨51, ["x", "y"], .call, 8⟩] := by
  refine ⟨?_, by decide⟩
  intro t fuel stack props path tm hall
  unfold _iterateLhsReferences
  simp only [run]
  unfold stepLhs
  rw [List.flatMap_eq_nil_iff]
  intro p hp
  have h := hall p hp
  obtain ⟨pid, pkey, psub⟩ := p
  cases pkey with
  | none => rfl
  | some key =>
    simp only [Option.all_some] at h
    rw [Option.isNone_iff_eq_none] at h
    simp [h]

/-- Witness for C8 at a concrete input: a one-property pattern whose key
misses the empty trace map. -/
theorem c8_witness :
    _iterateLhsReferences trC8 10 []
      (.objectPat [(43, some "z", .ident 44 "z" [[("z", 6)]])]) ["q"] tmC4 = [] :=
  c8_object_destructuring.1 trC8 9 [] [(43, some "z", .ident 44 "z" [[("z", 6)]])]
    ["q"] tmC4 (by decide)

/-- Claim C9: in the pattern-unpacker branch an identifier whose variable
the resolver cannot find silently yields nothing; but in the branch
for import specifiers the missing variable is passed unchecked to
`_iterateVariableReferences`, whose `variable.references` access throws a
`TypeError` (`ok = false`), instead of silently stopping the branch. -/
theorem c9_unresolved_identifier :
    (∀ (t : Tracer) (fuel : Nat) (stack : List Nat) (nid : Nat) (name : String)
       (scopes : List (List (String × Nat))) (path : List String) (tm : TraceMap),
      _findVariable t name scopes = none →
      _iterateLhsReferences t (fuel + 1) stack (.ident nid name scopes) path tm = []) ∧
    iterateEsmReferences trC9 10 tmC9 = ⟨[], false⟩ := by
  refine ⟨?_, by decide⟩
  intro t fuel stack nid name scopes path tm h
  unfold _iterateLhsReferences
  simp only [run]
  unfold stepLhs
  simp [h]

/-- Witness for C9 at a concrete input: the unresolvable identifier of the
crashing import scenario, fed to the pattern-unpacker branch. -/
theorem c9_witness :
    _iterateLhsReferences trC9 10 [] (.ident 131 "x" []) ["m"] tmC9 = [] :=
  c9_unresolved_identifier.1 trC9 9 [] 131 "x" [] ["m"] tmC9 rfl

/-- Claim C10 (amended): for a module map without the ESM marker, every
record reported through the specifier processing of the ES-module strategy
is an input record with `exceptDefault` applied to its path, and that
filter removes exactly a `"default"` at the second position; concretely,
strict-mode `import x from "m"; x.foo` reports `["m","foo"]` (not
`["m","default","foo"]`), while a deeper `default` segment survives:
`import x from "m"; x.foo.default` reports `["m","foo","default"]`.  (The
`ExportAllDeclaration` branch bypasses this filtering — see the
counterexample.) -/
theorem c10_default_segment_filtering :
    (∀ (o : Out) (m : Match), m ∈ (processSpecRes false o).records →
      ∃ r ∈ o.records,
        m = ⟨r.node, filterWithIndex exceptDefault r.path, r.type, r.entry⟩) ∧
    (∀ (a : String) (ext : List String),
      filterWithIndex exceptDefault (a :: ext) = a :: tailDefault ext) ∧
    iterateEsmReferences trC10a 10 tmC6 = ⟨[⟨61, ["m", "foo"], .read, 3⟩], true⟩ ∧
    iterateEsmReferences trC10b 10 tmC10b =
      ⟨[⟨72, ["m", "foo", "default"], .read, 4⟩], true⟩ := by
  refine ⟨?_, filterFull, by decide, by decide⟩
  intro o m hm
  simp only [processSpecRes] at hm
  rw [if_neg (by simp)] at hm
  obtain ⟨r, hr, hfm⟩ := List.mem_filterMap.mp hm
  split at hfm
  · exact ⟨r, hr, (Option.some_inj.mp hfm).symm⟩
  · simp at hfm

/-- Witness for C10 at a concrete input: a record with internal path
`["m","default","foo"]` reported with path `["m","foo"]`. -/
theorem c10_witness :
    ∃ r ∈ (Out.mk [⟨5, ["m", "default", "foo"], .read, 3⟩] true).records,
      (⟨5, ["m", "foo"], .read, 3⟩ : Match) =
        ⟨r.node, filterWithIndex exceptDefault r.path, r.type, r.entry⟩ :=
  c10_default_segment_filtering.1 ⟨[⟨5, ["m", "default", "foo"], .read, 3⟩], true⟩
    ⟨5, ["m", "foo"], .read, 3⟩ (by decide)

/-- Counterexample to C10 as stated: the `ExportAllDeclaration` branch
yields directly, without the `exceptDefault` filter, so with the
CommonJS-shaped map `{m: {default: {READ: 1}}}` the program
`export * from "m";` emits a record whose reported path keeps `"default"`
at the second position — the path is not its own `exceptDefault` image
(which would be `["m"]`). -/
theorem c10_counterexample :
    (iterateEsmReferences trC10x 10 tmC10x).records =
      [⟨170, ["m", "default"], .read, 1⟩] ∧
    (⟨170, ["m", "default"], .read, 1⟩ : Match).path ≠
      filterWithIndex exceptDefault (⟨170, ["m", "default"], .read, 1⟩ : Match).path := by
  constructor
  · decide
  · decide

end RefTracer

namespace RefTracer

/-- Claim C1 (amended): every record of the global-object and CommonJS
strategies is path/entry consistent with the caller-supplied trace map
(following the reported path from the map's root reaches the node whose
marker payload of the record's type is exactly the record's entry, which
also makes every path prefix a valid key chain from the entry keys); for
the ES-module strategy the same holds provided the mode is strict or every
CommonJS-shaped (ESM-marker-less) module map owns no `default` key — in
legacy mode an own `default` key overrides the interop wrapper's and
breaks the correspondence. -/
theorem c1_path_entry_consistency (t : Tracer) (fuel : Nat) (tm : TraceMap) :
    (∀ m ∈ iterateGlobalReferences t fuel tm, Consistent [] tm m) ∧
    (∀ m ∈ iterateCjsReferences t fuel tm, Consistent [] tm m) ∧
    ((t.mode = .strict ∨
        ∀ p ∈ tm.children, p.2.esm = true ∨ lookupChild p.2 "default" = none) →
      ∀ m ∈ (iterateEsmReferences t fuel tm).records, Consistent [] tm m) :=
  ⟨iterateGlobal_consistent t fuel tm, iterateCjs_consistent t fuel tm,
    fun h => esm_consistent t fuel tm h⟩

/-- Counterexample to C1 as stated: in legacy mode, with the
CommonJS-shaped map `{m: {default: {CALL: 9}}}`, the program
`import {default as d} from "m"; d();` emits a CALL record at path `["m"]`
with entry 9, but the trace-map node reached by following `["m"]` from the
caller-supplied map carries no CALL payload at all. -/
theorem c1_counterexample :
    (iterateEsmReferences trC1x 10 tmC1x).records = [⟨92, ["m"], .call, 9⟩] ∧
    ¬ Consistent [] tmC1x ⟨92, ["m"], .call, 9⟩ := by
  constructor
  · decide
  · rintro ⟨ext, tmEnd, hp, hlp, hmk⟩
    have hext : ext = ["m"] := by simpa using hp.symm
    rw [hext] at hlp
    have h0 : lookupPath tmC1x ["m"] =
        some (.node [("default", .node [] none (some 9) none false)] none none none false) := rfl
    rw [h0] at hlp
    rw [← Option.some_inj.mp hlp] at hmk
    simp [markerOf] at hmk

/-- Witness for C1 at concrete inputs: one record of each strategy, with
the strict-mode hypothesis discharged for the ES-module part. -/
theorem c1_witness :
    Consistent [] tmC2 ⟨10, ["a"], .read, 7⟩ ∧
    Consistent [] tmC3 ⟨31, ["m"], .read, 4⟩ ∧
    Consistent [] tmC6 ⟨61, ["m", "foo"], .read, 3⟩ :=
  ⟨(c1_path_entry_consistency trC2 10 tmC2).1 ⟨10, ["a"], .read, 7⟩ (by decide),
   (c1_path_entry_consistency trC3 10 tmC3).2.1 ⟨31, ["m"], .read, 4⟩ (by decide),
   (c1_path_entry_consistency trC10a 10 tmC6).2.2 (Or.inl rfl)
     ⟨61, ["m", "foo"], .read, 3⟩ (by decide)⟩

end RefTracer
